import Mathlib

/-!
Shallow embedding of `createInfiniteResource` (src/src/index.ts), a SolidJS
pagination-state controller, together with theorems settling the frozen
claims about its specification.

The embedding has two layers:
* a data layer — the `setAllData` updater, the `createComputed` settle
  handler and the `data` memo (accumulated view / merge / eviction);
* a control layer — the guard structure of `getNextPage`, the
  IntersectionObserver callback of the `refetchOnView` directive, the
  directive body at bind time, and the exposed `setHasReachedEnd` setter,
  as a small step machine over the controller's boolean state.

External solid-js semantics used by the embedding (both are documented
solid-js behaviour of `createResource`):
* reading a resource accessor (`pageData()`) while the error signal is set
  and no fetch is pending throws the stored error;
* `refetch` has no in-flight guard outside transitions: it invokes the
  fetcher again even while a previous fetch is still loading.
-/

namespace InfiniteResource

variable {T E : Type} {α : Type}

/-- Configuration options of `createInfiniteResource` relevant to the data
layer: `maxPages` (optional bounded window; note that in the source the
guard is the JS-truthiness test `options.maxPages && ...`, so `0` disables
eviction) and `mergeData` (optional custom merge policy
`(prevData, newData) => T[]`). -/
structure Options (T : Type) where
  maxPages : Option Nat
  mergeData : Option (List T → T → List T)

/-- The eviction step of the updater:
`if (options.maxPages && updatedData.length > options.maxPages)
  updatedData = updatedData.slice(-options.maxPages);`
`slice(-m)` keeps the last `m` elements, i.e. drops `length - m` from the
front. The JS-truthiness test makes `maxPages = 0` a no-op. -/
def applyMaxPages (maxPages : Option Nat) (l : List T) : List T :=
  match maxPages with
  | none => l
  | some m => if m ≠ 0 ∧ m < l.length then l.drop (l.length - m) else l

/-- The updater passed to `setAllData` on a successful settle:
`const newData = pageData(); if (!newData) return prev;` then either
`options.mergeData(prev, newData)` or `[...prev, newData]`, then the
`maxPages` eviction. `none` models a JS-falsy `newData` (for the
array/object page types at issue, exactly `undefined`/`null`). -/
def updateAllData (opts : Options T) (prev : List T) (newData : Option T) : List T :=
  match newData with
  | none => prev
  | some nd =>
    let updated : List T :=
      match opts.mergeData with
      | some f => f prev nd
      | none => prev ++ [nd]
    applyMaxPages opts.maxPages updated

/-- Snapshot of the solid-js resource `pageData` when the `createComputed`
handler runs: the `loading` signal, the `value` signal (`none` models
`undefined`) and the `error` signal. -/
structure PageData (T E : Type) where
  loading : Bool
  value : Option T
  error : Option E

/-- Reading the resource accessor `pageData()`: solid-js resource reads
throw the stored error when the error signal is set and no fetch is
pending (`if (err !== undefined && !pr) throw err` in the resource read
function); otherwise the read returns the value signal. -/
def readPageData (pd : PageData T E) : Except E (Option T) :=
  match pd.error, pd.loading with
  | some e, false => .error e
  | _, _ => .ok pd.value

/-- Observable result of one run of the `createComputed` handler:
the new `allData` contents and the list of arguments with which
`options.onError` was invoked during the run. -/
structure SettleEffect (T E : Type) where
  allData : List T
  onErrorCalls : List E
deriving DecidableEq

/-- The `createComputed` handler of `createInfiniteResource`, line by line:
`if (pageData.loading || !pageData()) return;`
`if (pageData.error) { options.onError?.(pageData.error); return; }`
`batch(() => setAllData(prev => ...));`
An `Except.error` result models an exception escaping the computation —
which happens when the guard reads `pageData()` while the resource is in
the error state, before the `pageData.error` branch is reached. -/
def handlePageData (opts : Options T) (prev : List T) (pd : PageData T E) :
    Except E (SettleEffect T E) :=
  if pd.loading then .ok ⟨prev, []⟩
  else
    match readPageData pd with
    | .error e => .error e
    | .ok none => .ok ⟨prev, []⟩
    | .ok (some _) =>
      match pd.error with
      | some e => .ok ⟨prev, [e]⟩
      | none => .ok ⟨updateAllData opts prev pd.value, []⟩

/-- The stored `allData` after a sequence of successful settles (each page
delivered with `loading = false` and no error), starting from `init`. -/
def runSettles (opts : Options T) (init : List T) (pages : List T) : List T :=
  pages.foldl (fun acc p => updateAllData opts acc (some p)) init

/-- The `data` memo:
`if (options.mergeData) return current; return current.flat(1);`
`Sum.inl` is the raw accumulated array returned unflattened under a custom
merge policy; `Sum.inr` is the one-level flatten under the default
policy. -/
def dataMemo (opts : Options (List α)) (current : List (List α)) :
    List (List α) ⊕ List α :=
  match opts.mergeData with
  | some _ => Sum.inl current
  | none => Sum.inr current.flatten

/-- Boolean control state of one controller instance: the `hasReachedEnd`
signal, the `loading` signal of the page resource, and whether the
directive's IntersectionObserver is currently observing the bound
element. -/
structure CtrlState where
  hasReachedEnd : Bool
  loading : Bool
  observed : Bool
deriving DecidableEq

/-- The manual trigger: `if (hasReachedEnd()) return; refetch(context);`.
There is no loading guard here; solid-js `refetch` invokes the fetcher
again unconditionally (outside transitions), so the second component
records that the fetch function is invoked whenever `hasReachedEnd` is
false. -/
def getNextPage (s : CtrlState) : CtrlState × Bool :=
  if s.hasReachedEnd then (s, false)
  else ({ s with loading := true }, true)

/-- One visibility event for the bound element. The IntersectionObserver
callback fires only for observed elements and computes
`shouldFetch = entries[0]?.isIntersecting && !hasReachedEnd() && !pageData.loading`;
if it holds, the bound action (default `getNextPage`) runs. The gating
condition from bind time is not re-read here. -/
def visibilityEvent (s : CtrlState) (isIntersecting : Bool) : CtrlState × Bool :=
  if s.observed && isIntersecting && !s.hasReachedEnd && !s.loading then
    getNextPage s
  else (s, false)

/-- The directive body at bind time: `if (isServer) return;` then
`const shouldObserve = typeof condition === 'function' ? condition() : condition;`
`if (shouldObserve) observer.observe(element);`
The gating condition is evaluated exactly once, here. -/
def bindDirective (isServer : Bool) (condAtBind : Bool) (s : CtrlState) : CtrlState :=
  if isServer then s
  else if condAtBind then { s with observed := true } else s

/-- The exposed `setHasReachedEnd` setter from the returned record
(value form of the solid-js `Setter`). -/
def setHasReachedEnd (b : Bool) (s : CtrlState) : CtrlState :=
  { s with hasReachedEnd := b }

/-- Events a controller instance can receive through the fetch-triggering
interface: a manual `getNextPage()` call, a visibility event for the bound
element (with its intersection flag), and the settle of an in-flight fetch
(success or error — either way solid-js clears the loading signal, and
neither settle path of the handler touches `hasReachedEnd`). -/
inductive Ev where
  | getNext : Ev
  | visEnter : Bool → Ev
  | settle : Ev
deriving DecidableEq

/-- One controller step; the second component records whether the fetch
function was invoked by this event. -/
def step (s : CtrlState) (e : Ev) : CtrlState × Bool :=
  match e with
  | .getNext => getNextPage s
  | .visEnter i => visibilityEvent s i
  | .settle => ({ s with loading := false }, false)

/-- Run a list of events from a state, counting fetch invocations. -/
def runEvents (s : CtrlState) (es : List Ev) : CtrlState × Nat :=
  match es with
  | [] => (s, 0)
  | e :: rest =>
    let p := step s e
    let q := runEvents p.1 rest
    (q.1, (if p.2 then 1 else 0) + q.2)

/-- Modelled from the spec: the accumulated view the spec describes for a
custom merge policy with `maxPages` set — after the trim, the accumulated
result is rebuilt by folding the merge function over the surviving
(trimmed) page sequence starting from empty. Refinement comparator only:
this follows the words of the spec, not the source. -/
def specFoldAccumulated (f : List T → T → List T) (m : Nat) (pages : List T) : List T :=
  (pages.drop (pages.length - m)).foldl f []

/-- A concrete non-associative merge policy used to separate the source
behaviour from the fold the spec describes: it collapses the accumulated
array to the single element `prev.sum + new`. -/
def mergeSumStep : List Nat → Nat → List Nat :=
  fun prev nd => [prev.sum + nd]

/-- A concrete time-varying gating condition: true when evaluated at bind
time (instant 0), false when re-evaluated at the visibility event
(instant 1). -/
def condA : Nat → Bool :=
  fun t => t == 0

/-! ## Helper lemmas -/

/-- Unfolding lemma: `runSettles` processes one page with `updateAllData`. -/
lemma runSettles_cons (opts : Options T) (init : List T) (p : T) (ps : List T) :
    runSettles opts init (p :: ps) = runSettles opts (updateAllData opts init (some p)) ps :=
  rfl

/-- With the default merge policy and no `maxPages`, each settle appends the
page to the tail. -/
lemma updateAllData_default_none (prev : List T) (p : T) :
    updateAllData (⟨none, none⟩ : Options T) prev (some p) = prev ++ [p] :=
  rfl

/-- With the default merge policy and no `maxPages`, a run of successful
settles appends the pages in fetch order. -/
lemma runSettles_none_none (pages : List T) :
    ∀ init : List T, runSettles (⟨none, none⟩ : Options T) init pages = init ++ pages := by
  induction pages with
  | nil => intro init; simp [runSettles]
  | cons p ps ih =>
    intro init
    rw [runSettles_cons, updateAllData_default_none, ih]
    simp

/-- With the default merge policy and `maxPages = some m`, a run that never
exceeds the window also just appends the pages in fetch order. -/
lemma runSettles_some_le (m : Nat) (pages : List T) :
    ∀ init : List T, init.length + pages.length ≤ m →
      runSettles (⟨some m, none⟩ : Options T) init pages = init ++ pages := by
  induction pages with
  | nil => intro init _; simp [runSettles]
  | cons p ps ih =>
    intro init h
    have hlen : init.length + ps.length + 1 ≤ m := by
      simpa [Nat.add_comm, Nat.add_assoc, Nat.add_left_comm] using h
    have hstep : updateAllData (⟨some m, none⟩ : Options T) init (some p) = init ++ [p] := by
      show applyMaxPages (some m) (init ++ [p]) = init ++ [p]
      simp only [applyMaxPages]
      rw [if_neg]
      rintro ⟨-, hlt⟩
      simp only [List.length_append, List.length_cons, List.length_nil] at hlt
      omega
    rw [runSettles_cons, hstep, ih]
    · simp
    · simp only [List.length_append, List.length_cons, List.length_nil]
      omega

/-- One eviction step keeps exactly the last `m` elements: appending a page
to the last-`m` suffix of `s` and trimming yields the last-`m` suffix of
`s ++ [p]`. -/
lemma applyMaxPages_lastN_step (m : Nat) (hm : 1 ≤ m) (s : List T) (p : T) :
    applyMaxPages (some m) (s.drop (s.length - m) ++ [p]) =
      (s ++ [p]).drop ((s ++ [p]).length - m) := by
  rcases Nat.lt_or_ge s.length m with hlt | hge
  · have h0 : s.length - m = 0 := Nat.sub_eq_zero_of_le (Nat.le_of_lt hlt)
    have h1 : (s ++ [p]).length - m = 0 := by
      simp only [List.length_append, List.length_cons, List.length_nil]
      omega
    rw [h0, h1, List.drop_zero, List.drop_zero]
    simp only [applyMaxPages]
    rw [if_neg]
    rintro ⟨-, hbad⟩
    simp only [List.length_append, List.length_cons, List.length_nil] at hbad
    omega
  · have hlen : (s.drop (s.length - m)).length = m := by
      rw [List.length_drop]; omega
    have hsplit : s.drop (s.length - m) ++ [p] = (s ++ [p]).drop (s.length - m) := by
      rw [List.drop_append_eq_append_drop]
      have : s.length - m - s.length = 0 := by omega
      rw [this, List.drop_zero]
    simp only [applyMaxPages]
    rw [if_pos]
    · rw [List.length_append, hlen, hsplit, List.drop_drop]
      have h2 : s.length - m + (m + [p].length - m) = (s ++ [p]).length - m := by
        simp only [List.length_append, List.length_cons, List.length_nil]
        omega
      rw [h2]
    · constructor
      · omega
      · rw [List.length_append, hlen]
        simp only [List.length_cons, List.length_nil]
        omega

/-- Window invariant of the default policy: starting from the last-`m`
suffix of an already-processed history `s`, a run of settles ends in the
last-`m` suffix of the full history. -/
lemma runSettles_default_window (m : Nat) (hm : 1 ≤ m) (pages : List T) :
    ∀ s : List T, runSettles (⟨some m, none⟩ : Options T) (s.drop (s.length - m)) pages =
      (s ++ pages).drop ((s ++ pages).length - m) := by
  induction pages with
  | nil => intro s; simp [runSettles]
  | cons p ps ih =>
    intro s
    have hstep : updateAllData (⟨some m, none⟩ : Options T) (s.drop (s.length - m)) (some p) =
        (s ++ [p]).drop ((s ++ [p]).length - m) :=
      applyMaxPages_lastN_step m hm s p
    rw [runSettles_cons, hstep]
    have hrec := ih (s ++ [p])
    rw [List.append_assoc] at hrec
    simpa using hrec

/-- A controller step neither clears `hasReachedEnd` nor invokes the fetch
function once `hasReachedEnd` is true. -/
lemma step_preserves_end (s : CtrlState) (e : Ev) (h : s.hasReachedEnd = true) :
    (step s e).1.hasReachedEnd = true ∧ (step s e).2 = false := by
  cases e with
  | getNext => simp [step, getNextPage, h]
  | visEnter i => simp [step, visibilityEvent, getNextPage, h]
  | settle => simpa [step] using h

/-- Along any run of fetch-triggering events from a state with
`hasReachedEnd = true`, the flag stays true and no fetch is invoked. -/
lemma runEvents_end (s : CtrlState) (es : List Ev) (h : s.hasReachedEnd = true) :
    (runEvents s es).1.hasReachedEnd = true ∧ (runEvents s es).2 = 0 := by
  induction es generalizing s with
  | nil => simpa [runEvents] using h
  | cons e rest ih =>
    have hp := step_preserves_end s e h
    have hr := ih (step s e).1 hp.1
    simp [runEvents, hp.2, hr.1, hr.2]

/-! ## Claim theorems -/

/-- C1, counterexample: in a state where the current fetch is in flight
(`loading = true`) and `hasReachedEnd` is false, a `getNextPage()` call is
not a no-op — it invokes the fetch function again, because the only guard
in `getNextPage` is `hasReachedEnd`. -/
theorem C1_cex_fetch_while_loading :
    (getNextPage ⟨false, true, false⟩).2 = true :=
  rfl

/-- C1, amended: while a fetch is in flight, `getNextPage()` invokes the
fetch function again exactly when `hasReachedEnd` is false (the state then
stays loading); the loading guard exists only in the visibility-triggered
path, not in `getNextPage`. -/
theorem C1_only_end_guard (s : CtrlState) (h : s.loading = true) :
    (getNextPage s).2 = !s.hasReachedEnd ∧ (getNextPage s).1.loading = true := by
  cases hE : s.hasReachedEnd <;> simp [getNextPage, hE, h]

/-- C1, witness for the amended theorem at a concrete loading state. -/
theorem C1_only_end_guard_witness :
    (getNextPage ⟨false, true, false⟩).2 = !(false : Bool) ∧
    (getNextPage ⟨false, true, false⟩).1.loading = true :=
  C1_only_end_guard ⟨false, true, false⟩ rfl

/-- C2: with no custom `mergeData` and, when `maxPages` is set, at most
`maxPages` fetches, the `data` memo over the accumulated state of a run of
successful fetches is the one-level flatten of the fetched pages in fetch
order. -/
theorem C2_default_flatten (pages : List (List α)) (mp : Option Nat)
    (hcap : mp = none ∨ ∃ m, mp = some m ∧ pages.length ≤ m) :
    dataMemo ⟨mp, none⟩ (runSettles (⟨mp, none⟩ : Options (List α)) [] pages) =
      Sum.inr pages.flatten := by
  rcases hcap with hnone | ⟨m, hsome, hle⟩
  · subst hnone
    rw [dataMemo, runSettles_none_none]
    simp
  · subst hsome
    rw [dataMemo, runSettles_some_le m pages [] (by simpa using hle)]
    simp

/-- C2, witness: fetching `["a","b"]` then `["c","d"]` accumulates to the
flattened `["a","b","c","d"]`. -/
theorem C2_default_flatten_witness :
    dataMemo ⟨none, none⟩
      (runSettles (⟨none, none⟩ : Options (List String)) [] [["a", "b"], ["c", "d"]]) =
      Sum.inr ["a", "b", "c", "d"] :=
  C2_default_flatten [["a", "b"], ["c", "d"]] none (Or.inl rfl)

/-- C3: under the default merge policy with a positive `maxPages = m` and
more than `m` successful fetches, the stored sequence is exactly the
last-`m` suffix of the fetched pages — length exactly `m`, the most
recently fetched pages only, evicted from the head, order preserved. The
statement quantifies over every run, so each intermediate state after an
append is the instance at the corresponding prefix of the fetch
sequence. -/
theorem C3_eviction_window (m : Nat) (pages : List T)
    (hm : 1 ≤ m) (hlen : m < pages.length) :
    runSettles (⟨some m, none⟩ : Options T) [] pages =
      pages.drop (pages.length - m) ∧
    (runSettles (⟨some m, none⟩ : Options T) [] pages).length = m := by
  have key := runSettles_default_window m hm pages []
  simp only [List.length_nil, List.drop_nil, Nat.zero_sub, List.drop_zero,
    List.nil_append] at key
  refine ⟨key, ?_⟩
  rw [key, List.length_drop]
  omega

/-- C3, witness: `maxPages = 2` and three fetched pages keep exactly the
last two, in order. -/
theorem C3_eviction_window_witness :
    runSettles (⟨some 2, none⟩ : Options Nat) [] [1, 2, 3] = [2, 3] ∧
    (runSettles (⟨some 2, none⟩ : Options Nat) [] [1, 2, 3]).length = 2 :=
  C3_eviction_window 2 [1, 2, 3] (by decide) (by decide)

/-- C4: evaluation of the settle handler at the failing input — the fetch
has rejected with the error, so the resource snapshot is
`loading = false, value = undefined, error = some e`. The guard
`!pageData()` reads the errored resource, which throws the stored error
before the `pageData.error` branch is reached: the run ends in an escaped
exception and `onError` is never invoked, contradicting the claim, the
spec and the repository's own test. -/
theorem C4_error_branch_unreachable :
    handlePageData (⟨none, none⟩ : Options (List String)) []
      (⟨false, none, some "Fetch failed"⟩ : PageData (List String) String) =
      Except.error "Fetch failed" :=
  rfl

/-- C5: once `hasReachedEnd` is true, no later fetch-triggering event —
manual `getNextPage()`, visibility event, or settle of an in-flight fetch —
invokes the fetch function, regardless of the loading state. -/
theorem C5_end_suppresses_all_fetches (s : CtrlState) (es : List Ev)
    (h : s.hasReachedEnd = true) : (runEvents s es).2 = 0 :=
  (runEvents_end s es h).2

/-- C5, witness: a concrete event sequence from a reached-end state (with
an observed element and loading false) performs zero fetch invocations. -/
theorem C5_end_suppresses_all_fetches_witness :
    (runEvents ⟨true, false, true⟩
      [Ev.getNext, Ev.visEnter true, Ev.settle, Ev.getNext]).2 = 0 :=
  C5_end_suppresses_all_fetches ⟨true, false, true⟩
    [Ev.getNext, Ev.visEnter true, Ev.settle, Ev.getNext] rfl

/-- C6, counterexample: the gating predicate `condA` evaluates true at bind
time (instant 0) and false at the visibility event (instant 1); the element
is observed at bind, and at the event — with `EndOfData` false, no fetch in
flight and the element intersecting — the bound action is invoked even
though the re-evaluated condition is false, because the directive never
re-evaluates the condition after bind time. -/
theorem C6_cex_stale_condition :
    (visibilityEvent (bindDirective false (condA 0) ⟨false, false, false⟩) true).2 = true ∧
    condA 1 = false := by
  decide

/-- C6, amended: on a visibility-enter event for a freshly bound element
(browser context), the bound action is invoked exactly when the gating
condition evaluated true at bind time, the entry is intersecting,
`EndOfData` is false and no fetch is in flight; the condition is not
re-evaluated at event time. -/
theorem C6_bind_time_gate (condAtBind isIntersecting endFlag loadingFlag : Bool) :
    (visibilityEvent (bindDirective false condAtBind ⟨endFlag, loadingFlag, false⟩)
      isIntersecting).2 =
      (condAtBind && isIntersecting && !endFlag && !loadingFlag) := by
  cases endFlag <;> cases loadingFlag <;> cases condAtBind <;> cases isIntersecting <;> rfl

/-- C7, counterexample: with `maxPages = 2`, the merge policy
`mergeSumStep` and pages `1, 2, 3`, the stored accumulated result of the
source differs from the spec-described rebuild by folding the merge
function over the surviving trimmed page sequence from empty
(`[6]` versus `[5]`). -/
theorem C7_cex_not_fold_over_window :
    runSettles (⟨some 2, some mergeSumStep⟩ : Options Nat) [] [1, 2, 3] ≠
      specFoldAccumulated mergeSumStep 2 [1, 2, 3] := by
  decide

/-- C7, amended: with a custom merge policy and `maxPages` set, each
successful settle invokes the merge function exactly once — on the
previously stored accumulated array and the newest page — and then trims
the merge output; over a whole run this is a single fold with one merge
invocation per fetched page, not a rebuild with one invocation per
surviving page after every trim. -/
theorem C7_merge_once_per_settle (f : List T → T → List T) (m : Nat) (pages : List T) :
    runSettles (⟨some m, some f⟩ : Options T) [] pages =
      pages.foldl (fun acc p => applyMaxPages (some m) (f acc p)) [] := by
  have h : ∀ (qs : List T) (init : List T),
      runSettles (⟨some m, some f⟩ : Options T) init qs =
        qs.foldl (fun acc p => applyMaxPages (some m) (f acc p)) init := by
    intro qs
    induction qs with
    | nil => intro init; rfl
    | cons p ps ih => intro init; exact ih _
  exact h pages []

/-- C8, counterexample: the returned record exposes `setHasReachedEnd`
(src lines 51-52 and 216), and applying it with `false` to a controller
state whose `EndOfData` flag is true resets the flag — so an operation that
resets `EndOfData` is exposed and the flag is not monotonic at the public
interface. -/
theorem C8_cex_setter_resets_flag :
    (setHasReachedEnd false ⟨true, false, false⟩).hasReachedEnd = false :=
  rfl

/-- C8, amended: apart from the exposed `setHasReachedEnd` setter, no
operation resets the flag: along any run of the fetch-triggering events
(manual calls, visibility events, settles), once `hasReachedEnd` is true it
remains true. -/
theorem C8_monotonic_outside_setter (s : CtrlState) (es : List Ev)
    (h : s.hasReachedEnd = true) : (runEvents s es).1.hasReachedEnd = true :=
  (runEvents_end s es h).1

/-- C8, witness for the amended theorem at a concrete state and event
sequence. -/
theorem C8_monotonic_outside_setter_witness :
    (runEvents ⟨true, true, false⟩
      [Ev.settle, Ev.getNext, Ev.visEnter true]).1.hasReachedEnd = true :=
  C8_monotonic_outside_setter ⟨true, true, false⟩
    [Ev.settle, Ev.getNext, Ev.visEnter true] rfl

/-- C9: the `data` memo applies no flattening when a custom `mergeData` is
supplied — it returns the accumulated array as is — and applies the
one-level flatten exactly when `mergeData` is absent. -/
theorem C9_no_flatten_under_custom_merge (mp : Option Nat)
    (f : List (List α) → List α → List (List α)) (current : List (List α)) :
    dataMemo ⟨mp, some f⟩ current = Sum.inl current ∧
    dataMemo (⟨mp, none⟩ : Options (List α)) current = Sum.inr current.flatten :=
  ⟨rfl, rfl⟩

/-- C10: with a custom merge policy and a positive `maxPages = m`, each
successful settle stores the last-`m` suffix of whatever array the merge
function returned, so the stored accumulated array has length at most `m`
after every settle. -/
theorem C10_trim_applied_to_merge_output (f : List T → T → List T) (m : Nat)
    (prev : List T) (p : T) (hm : 1 ≤ m) :
    updateAllData (⟨some m, some f⟩ : Options T) prev (some p) =
      (f prev p).drop ((f prev p).length - m) ∧
    (updateAllData (⟨some m, some f⟩ : Options T) prev (some p)).length ≤ m := by
  have hEq : updateAllData (⟨some m, some f⟩ : Options T) prev (some p) =
      applyMaxPages (some m) (f prev p) := rfl
  rw [hEq]
  by_cases hc : m < (f prev p).length
  · have hdrop : applyMaxPages (some m) (f prev p) =
        (f prev p).drop ((f prev p).length - m) := by
      simp only [applyMaxPages]
      rw [if_pos ⟨by omega, hc⟩]
    rw [hdrop]
    refine ⟨rfl, ?_⟩
    rw [List.length_drop]
    omega
  · have h0 : (f prev p).length - m = 0 := by omega
    have hkeep : applyMaxPages (some m) (f prev p) = f prev p := by
      simp only [applyMaxPages]
      rw [if_neg (fun hand => hc hand.2)]
    rw [hkeep, h0, List.drop_zero]
    exact ⟨rfl, by omega⟩

/-- C10, witness: `maxPages = 1` with an appending merge keeps only the
last element of the merge output. -/
theorem C10_trim_applied_to_merge_output_witness :
    updateAllData (⟨some 1, some (fun prev p => prev ++ [p])⟩ : Options Nat)
      [5] (some 7) = [7] ∧
    (updateAllData (⟨some 1, some (fun prev p => prev ++ [p])⟩ : Options Nat)
      [5] (some 7)).length ≤ 1 :=
  C10_trim_applied_to_merge_output (fun prev p => prev ++ [p]) 1 [5] 7 (by decide)

end InfiniteResource
